import Mathlib

/-!
Verification of the Anchor auction program in
`src/programs/auction/src/lib.rs` (errors in `src/programs/auction/src/errors.rs`).

Shallow embedding notes.

* `Pubkey` is modelled as `Nat`; `Pubkey::default()` (the all-zero key that a
  freshly `init`-ialized `State` account carries in `highest_bidder_account`)
  is `0`.
* `i64` timestamps are `Int`; `u64` lamport amounts are `Nat` (total lamports
  on Solana stay far below `2^64`, so the unchecked `u64` additions and the
  checked subtraction in `transfer_from_treasury` never wrap).
* The treasury's rent-exemption lamports and the rent lamports reclaimed when a
  `UserBid` account is `close`d are bookkeeping of the storage substrate and
  are not part of the escrowed bid money; the model's `treasury` field counts
  only deposited bid lamports.
* The PDA bump fields (`State.bump`, `State.highest_bidder_bump`) are
  address-derivation metadata with no effect on the program logic modelled
  here and are omitted.
* `sol_to_lamports` (an `f64` SOL to `u64` lamports conversion) is taken as an
  already-applied external utility: `bid` receives the lamport amount directly.
* Anchor validates every account listed in the instruction's `Accounts` struct
  before the instruction body runs.  Two consequences are modelled explicitly:
  `PlaceBid.user_bid` is declared `init`, so a bid by a user whose `UserBid`
  PDA already exists fails during account creation (`accountAlreadyInUse`
  below); `EndAuction.user_bid` and `Refund.user_bid` are plain
  `Account<'info, UserBid>` fields, so the instruction fails during
  deserialization when the addressed `UserBid` account does not exist
  (`accountNotInitialized` below — this is the "record not found" /
  `NoSuchBid` failure of the specification).
* A failed Solana transaction is rolled back by the runtime, so a step that
  returns an error leaves the persistent state unchanged (`applyEvent`).
* The `invoke`d system transfer in `bid` debits the bidder's external wallet;
  external wallet balances are out of scope and the transfer is assumed
  funded.  The lamports credited to the initializer's wallet by
  `transfer_from_treasury` in `end_auction` are tallied in
  `paidToInitializer` so that the payout amount stays observable after
  `highest_bid_amount` is reset.
-/

namespace Auction

/-- Errors of the program.  The first five are the variants of
`AuctionError` in `src/programs/auction/src/errors.rs`; the last two stand for
the Anchor account-validation failures described in the header comment. -/
inductive AuctionError where
  | stillActive
  | finished
  | unclaimedPrize
  | alreadyClaimedPrize
  | treasuryInsufficientFunds
  | accountAlreadyInUse
  | accountNotInitialized
deriving DecidableEq, Repr

/-- The persistent state of one auction: the `State` account of the program
together with the live `UserBid` accounts (an association list from bidder
pubkey to deposited amount), the treasury's escrowed lamports, and the tally
of lamports paid out to the initializer's wallet. -/
structure State where
  deadline : Int
  initializer : Nat
  sellerPayed : Bool
  highestBidAmount : Nat
  highestBidderAccount : Nat
  treasury : Nat
  bids : List (Nat × Nat)
  paidToInitializer : Nat
deriving DecidableEq, Repr

/-- Look up the `UserBid` account of bidder `u` (first matching entry). -/
def lookupBid : List (Nat × Nat) → Nat → Option Nat
  | [], _ => none
  | p :: ps, u => if p.1 = u then some p.2 else lookupBid ps u

/-- Close (delete) the `UserBid` account of bidder `u` (first matching
entry). -/
def removeBid : List (Nat × Nat) → Nat → List (Nat × Nat)
  | [], _ => []
  | p :: ps, u => if p.1 = u then ps else p :: removeBid ps u

/-- Sum of the amounts of all live `UserBid` accounts. -/
def sumBids (bids : List (Nat × Nat)) : Nat :=
  (bids.map Prod.snd).sum

/-- `initialize`: creates the `State` account (Anchor zero-initializes it, so
`seller_payed = false`, `highest_bid_amount = 0`,
`highest_bidder_account = Pubkey::default()`), sets
`deadline = now + auction_duration` and `initializer`, and creates the empty
treasury. -/
def initAuction (now : Int) (seller : Nat) (auctionDuration : Int) : State :=
  { deadline := now + auctionDuration
    initializer := seller
    sellerPayed := false
    highestBidAmount := 0
    highestBidderAccount := 0
    treasury := 0
    bids := []
    paidToInitializer := 0 }

/-- `bid`.  Account validation first: `user_bid` is `init`, so an existing
`UserBid` PDA for this bidder aborts the call.  The body then rejects with
`Finished` at or after the deadline, records `user_bid.amount = amount`,
transfers `amount` into the treasury, and promotes the bidder to leader when
`amount` strictly exceeds `highest_bid_amount`. -/
def bid (s : State) (now : Int) (user : Nat) (amount : Nat) :
    Except AuctionError State :=
  match lookupBid s.bids user with
  | some _ => .error .accountAlreadyInUse
  | none =>
  if s.deadline ≤ now then .error .finished
  else
    let s1 : State :=
      { s with bids := (user, amount) :: s.bids
               treasury := s.treasury + amount }
    if s.highestBidAmount < amount then
      .ok { s1 with highestBidAmount := amount, highestBidderAccount := user }
    else
      .ok s1

/-- `end_auction`.  Account validation first: `user_bid` is the `UserBid` PDA
of `state.highest_bidder_account` and must exist.  The body rejects with
`StillActive` before the deadline and `AlreadyClaimedPrize` when
`seller_payed` is already set, transfers the winning record's amount from the
treasury to the initializer when it is positive (subject to the
`transfer_from_treasury` sufficiency check), then sets `seller_payed` and
resets `highest_bid_amount`. -/
def end_auction (s : State) (now : Int) : Except AuctionError State :=
  match lookupBid s.bids s.highestBidderAccount with
  | none => .error .accountNotInitialized
  | some amountToPay =>
    if now < s.deadline then .error .stillActive
    else if s.sellerPayed then .error .alreadyClaimedPrize
    else if 0 < amountToPay then
      if s.treasury < amountToPay then .error .treasuryInsufficientFunds
      else
        .ok { s with treasury := s.treasury - amountToPay
                     paidToInitializer := s.paidToInitializer + amountToPay
                     sellerPayed := true
                     highestBidAmount := 0 }
    else
      .ok { s with sellerPayed := true, highestBidAmount := 0 }

/-- `refund`.  Account validation first: `user_bid` is the caller's `UserBid`
PDA and must exist.  The body rejects with `StillActive` before the deadline
and `UnclaimedPrize` while `seller_payed` is unset; a caller other than the
highest bidder is then paid back their recorded amount from the treasury (the
transfer is skipped when the amount is 0), and in every successful case the
caller's `UserBid` account is closed. -/
def refund (s : State) (now : Int) (user : Nat) : Except AuctionError State :=
  match lookupBid s.bids user with
  | none => .error .accountNotInitialized
  | some amount =>
    if now < s.deadline then .error .stillActive
    else if s.sellerPayed = false then .error .unclaimedPrize
    else if s.highestBidderAccount ≠ user then
      if 0 < amount then
        if s.treasury < amount then .error .treasuryInsufficientFunds
        else
          .ok { s with treasury := s.treasury - amount
                       bids := removeBid s.bids user }
      else
        .ok { s with bids := removeBid s.bids user }
    else
      .ok { s with bids := removeBid s.bids user }

/-- One call to the program after initialization, tagged with the value of
`Clock::get()` at that call. -/
inductive Event where
  | bid (now : Int) (user : Nat) (amount : Nat)
  | settle (now : Int)
  | refund (now : Int) (user : Nat)
deriving DecidableEq, Repr

/-- The clock value at an event. -/
def Event.time : Event → Int
  | .bid t _ _ => t
  | .settle t => t
  | .refund t _ => t

/-- Dispatch one event to the corresponding instruction. -/
def step (s : State) : Event → Except AuctionError State
  | .bid t u a => bid s t u a
  | .settle t => end_auction s t
  | .refund t u => refund s t u

/-- Transactional semantics: a failed instruction is rolled back and leaves
the persistent state unchanged. -/
def applyEvent (s : State) (e : Event) : State :=
  match step s e with
  | .ok s' => s'
  | .error _ => s

/-- Run a sequence of calls. -/
def run (s : State) (tr : List Event) : State :=
  tr.foldl applyEvent s

/-- The clock is non-decreasing: every event happens no earlier than `t` and
no earlier than its predecessors. -/
def chrono : Int → List Event → Bool
  | _, [] => true
  | t, e :: tr => decide (t ≤ e.time) && chrono e.time tr

/-- Every event in the list happens at or after time `d`. -/
def allAfter (d : Int) (tr : List Event) : Bool :=
  tr.all fun e => decide (d ≤ e.time)

/-- States reachable from a fresh auction by a chronological sequence of
calls. -/
def Reachable (s : State) : Prop :=
  ∃ (seller : Nat) (t0 auctionDuration : Int) (tr : List Event),
    chrono t0 tr = true ∧ run (initAuction t0 seller auctionDuration) tr = s

/-- Effective escrowed weight of one live `UserBid` entry: the winning
record's amount is already paid out once the seller has settled, every other
live record is still backed by escrowed lamports. -/
def effAmt (payed : Bool) (winner : Nat) (p : Nat × Nat) : Nat :=
  if payed = true ∧ p.1 = winner then 0 else p.2

/-- The escrowed lamports accounted for by the live `UserBid` records: the sum
of their amounts, except that the winning record counts 0 once the seller has
settled. -/
def effSum (s : State) : Nat :=
  (s.bids.map (effAmt s.sellerPayed s.highestBidderAccount)).sum

/-- The live `UserBid` accounts have pairwise distinct owners (each (auction,
bidder) pair addresses a single PDA). -/
def keysNodup (s : State) : Prop :=
  (s.bids.map Prod.fst).Nodup

end Auction

namespace Auction

theorem lookupBid_none_iff {bids : List (Nat × Nat)} {u : Nat} :
    lookupBid bids u = none ↔ ∀ p ∈ bids, p.1 ≠ u := by
  induction bids with
  | nil => simp [lookupBid]
  | cons p ps ih =>
    by_cases hp : p.1 = u
    · simp [lookupBid, hp]
    · simp [lookupBid, hp, ih]

theorem removeBid_sublist (bids : List (Nat × Nat)) (u : Nat) :
    (removeBid bids u).Sublist bids := by
  induction bids with
  | nil => simp [removeBid]
  | cons p ps ih =>
    by_cases hp : p.1 = u
    · simp only [removeBid, if_pos hp]
      exact List.sublist_cons_self p ps
    · simpa [removeBid, hp] using ih.cons₂ p

theorem sum_removeBid (f : Nat × Nat → Nat) {bids : List (Nat × Nat)}
    {u a : Nat} (h : lookupBid bids u = some a) :
    ((removeBid bids u).map f).sum + f (u, a) = (bids.map f).sum := by
  induction bids with
  | nil => simp [lookupBid] at h
  | cons p ps ih =>
    obtain ⟨x, y⟩ := p
    by_cases hp : x = u
    · simp [lookupBid, hp] at h
      subst hp; subst h
      simp [removeBid, Nat.add_comm]
    · simp [lookupBid, hp] at h
      simp [removeBid, hp, ← ih h, Nat.add_assoc]

theorem lookup_le_sum (f : Nat × Nat → Nat) {bids : List (Nat × Nat)}
    {u a : Nat} (h : lookupBid bids u = some a) :
    f (u, a) ≤ (bids.map f).sum := by
  have := sum_removeBid f h
  omega

theorem keys_nodup_removeBid {bids : List (Nat × Nat)} {u : Nat}
    (h : (bids.map Prod.fst).Nodup) :
    ((removeBid bids u).map Prod.fst).Nodup :=
  ((removeBid_sublist bids u).map Prod.fst).nodup h

theorem mem_removeBid_ne {bids : List (Nat × Nat)} {u : Nat}
    (hn : (bids.map Prod.fst).Nodup) :
    ∀ p ∈ removeBid bids u, p.1 ≠ u := by
  induction bids with
  | nil => simp [removeBid]
  | cons q ps ih =>
    obtain ⟨x, y⟩ := q
    simp only [List.map_cons, List.nodup_cons] at hn
    by_cases hq : x = u
    · subst hq
      intro p hp
      simp only [removeBid, if_pos rfl] at hp
      intro hpu
      exact hn.1 (List.mem_map.2 ⟨p, hp, hpu⟩)
    · intro p hp
      simp only [removeBid, if_neg hq] at hp
      rcases List.mem_cons.1 hp with h1 | h2
      · subst h1; exact hq
      · exact ih hn.2 p h2

theorem lookupBid_none_of_sublist {l1 l2 : List (Nat × Nat)} {u : Nat}
    (hs : l1.Sublist l2) (h : lookupBid l2 u = none) :
    lookupBid l1 u = none :=
  lookupBid_none_iff.2 fun p hp => lookupBid_none_iff.1 h p (hs.subset hp)

theorem lookupBid_removeBid_ne {bids : List (Nat × Nat)} {u v : Nat}
    (h : v ≠ u) : lookupBid (removeBid bids u) v = lookupBid bids v := by
  induction bids with
  | nil => simp [removeBid]
  | cons p ps ih =>
    obtain ⟨x, y⟩ := p
    by_cases hp : x = u
    · subst hp
      have hxv : x ≠ v := fun hxv => h (hxv.symm)
      simp [removeBid, lookupBid, hxv]
    · by_cases hv : x = v
      · subst hv
        simp [removeBid, hp, lookupBid]
      · simp [removeBid, hp, lookupBid, hv, ih]

theorem settle_effSum {bids : List (Nat × Nat)} {w a : Nat}
    (hn : (bids.map Prod.fst).Nodup) (h : lookupBid bids w = some a) :
    (bids.map (effAmt true w)).sum + a = (bids.map Prod.snd).sum := by
  have h1 := sum_removeBid (effAmt true w) h
  have h2 := sum_removeBid Prod.snd h
  have h3 : ((removeBid bids w).map (effAmt true w)).sum
      = ((removeBid bids w).map Prod.snd).sum := by
    apply congrArg List.sum
    apply List.map_congr_left
    intro p hp
    have hne : p.1 ≠ w := mem_removeBid_ne hn p hp
    simp [effAmt, hne]
  have h4 : effAmt true w (w, a) = 0 := by simp [effAmt]
  omega

theorem effAmt_false (w : Nat) (p : Nat × Nat) : effAmt false w p = p.2 := by
  simp [effAmt]

theorem effSum_not_payed {s : State} (h : s.sellerPayed = false) :
    effSum s = sumBids s.bids := by
  unfold effSum sumBids
  rw [h]
  apply congrArg List.sum
  apply List.map_congr_left
  intro p _
  exact effAmt_false _ p

end Auction

namespace Auction

theorem applyEvent_of_error {s : State} {e : Event} {x : AuctionError}
    (h : step s e = .error x) : applyEvent s e = s := by
  unfold applyEvent
  rw [h]

theorem applyEvent_of_ok {s s' : State} {e : Event}
    (h : step s e = .ok s') : applyEvent s e = s' := by
  unfold applyEvent
  rw [h]

theorem run_cons (s : State) (e : Event) (tr : List Event) :
    run s (e :: tr) = run (applyEvent s e) tr := rfl

/-- Inversion of a successful `bid`: the bidder had no `UserBid` account, the
deadline had not passed, and the new state is the old one with the account
created, the deposit escrowed, and the leader updated on a strictly greater
amount. -/
theorem bid_ok_inv {s : State} {t : Int} {u a : Nat} {s' : State}
    (h : bid s t u a = .ok s') :
    lookupBid s.bids u = none ∧ t < s.deadline ∧
    s'.bids = (u, a) :: s.bids ∧ s'.treasury = s.treasury + a ∧
    s'.sellerPayed = s.sellerPayed ∧ s'.deadline = s.deadline ∧
    s'.initializer = s.initializer ∧
    s'.paidToInitializer = s.paidToInitializer ∧
    ((s.highestBidAmount < a ∧ s'.highestBidAmount = a ∧
        s'.highestBidderAccount = u) ∨
      (¬ s.highestBidAmount < a ∧ s'.highestBidAmount = s.highestBidAmount ∧
        s'.highestBidderAccount = s.highestBidderAccount)) := by
  unfold bid at h
  split at h
  · cases h
  next hl =>
    split at h
    · cases h
    next hd =>
      split at h
      next hhi =>
        cases h
        refine ⟨hl, by omega, rfl, rfl, rfl, rfl, rfl, rfl, .inl ⟨hhi, rfl, rfl⟩⟩
      next hhi =>
        cases h
        refine ⟨hl, by omega, rfl, rfl, rfl, rfl, rfl, rfl, .inr ⟨hhi, rfl, rfl⟩⟩

/-- Inversion of a successful `end_auction`: the winning `UserBid` account
exists, the deadline has passed, the seller had not settled, the escrow could
cover the payout, and the new state pays it out, marks the seller paid and
resets the running maximum, leaving the `UserBid` accounts untouched. -/
theorem end_auction_ok_inv {s : State} {t : Int} {s' : State}
    (h : end_auction s t = .ok s') :
    ∃ a, lookupBid s.bids s.highestBidderAccount = some a ∧
    s.deadline ≤ t ∧ s.sellerPayed = false ∧ a ≤ s.treasury ∧
    s'.bids = s.bids ∧ s'.treasury = s.treasury - a ∧
    s'.paidToInitializer = s.paidToInitializer + a ∧
    s'.sellerPayed = true ∧ s'.highestBidAmount = 0 ∧
    s'.highestBidderAccount = s.highestBidderAccount ∧
    s'.deadline = s.deadline ∧ s'.initializer = s.initializer := by
  unfold end_auction at h
  split at h
  · cases h
  next a hl =>
    split at h
    · cases h
    next hd =>
      split at h
      next hp => cases h
      next hp =>
        split at h
        next ha =>
          split at h
          next htr => cases h
          next htr =>
            cases h
            exact ⟨a, hl, by omega, by simpa using hp, by omega,
              rfl, rfl, rfl, rfl, rfl, rfl, rfl, rfl⟩
        next ha =>
          cases h
          have ha0 : a = 0 := by omega
          subst ha0
          exact ⟨0, hl, by omega, by simpa using hp, by omega,
            rfl, by simp, by simp, rfl, rfl, rfl, rfl, rfl⟩

/-- Inversion of a successful `refund`: the caller's `UserBid` account exists,
the deadline has passed, the seller has settled, the account is closed, the
`State` account is untouched, and the treasury refunds the recorded amount
unless the caller is the highest bidder. -/
theorem refund_ok_inv {s : State} {t : Int} {u : Nat} {s' : State}
    (h : refund s t u = .ok s') :
    ∃ a, lookupBid s.bids u = some a ∧ s.deadline ≤ t ∧
    s.sellerPayed = true ∧ s'.bids = removeBid s.bids u ∧
    s'.deadline = s.deadline ∧ s'.initializer = s.initializer ∧
    s'.sellerPayed = s.sellerPayed ∧
    s'.highestBidAmount = s.highestBidAmount ∧
    s'.highestBidderAccount = s.highestBidderAccount ∧
    s'.paidToInitializer = s.paidToInitializer ∧
    ((s.highestBidderAccount = u ∧ s'.treasury = s.treasury) ∨
      (s.highestBidderAccount ≠ u ∧ a ≤ s.treasury ∧
        s'.treasury = s.treasury - a)) := by
  unfold refund at h
  split at h
  · cases h
  next a hl =>
    split at h
    · cases h
    next hd =>
      split at h
      next hp => cases h
      next hp =>
        have hp' : s.sellerPayed = true := by
          cases hsp : s.sellerPayed
          · exact absurd hsp hp
          · rfl
        split at h
        next hw =>
          split at h
          next ha =>
            split at h
            next htr => cases h
            next htr =>
              cases h
              exact ⟨a, hl, by omega, hp', rfl, rfl, rfl, rfl, rfl, rfl, rfl,
                .inr ⟨hw, by omega, rfl⟩⟩
          next ha =>
            cases h
            have ha0 : a = 0 := by omega
            subst ha0
            exact ⟨0, hl, by omega, hp', rfl, rfl, rfl, rfl, rfl, rfl, rfl,
              .inr ⟨hw, by omega, by simp⟩⟩
        next hw =>
          cases h
          have hw' : s.highestBidderAccount = u := by
            by_contra hc
            exact hw hc
          exact ⟨a, hl, by omega, hp', rfl, rfl, rfl, rfl, rfl, rfl, rfl,
            .inl ⟨hw', rfl⟩⟩

end Auction

namespace Auction

theorem effSum_false_list (w : Nat) (l : List (Nat × Nat)) :
    (l.map (effAmt false w)).sum = (l.map Prod.snd).sum := by
  apply congrArg
  apply List.map_congr_left
  intro p _
  exact effAmt_false w p

/-- Inductive invariant along chronological traces: live `UserBid` accounts
have pairwise distinct owners, the treasury holds exactly the effective
escrowed sum, and once the seller has settled the deadline lies at or before
`t`, a lower bound on every future clock value. -/
def Inv (s : State) (t : Int) : Prop :=
  keysNodup s ∧ s.treasury = effSum s ∧ (s.sellerPayed = true → s.deadline ≤ t)

theorem inv_applyEvent {s : State} {t : Int} {e : Event}
    (hI : Inv s t) (ht : t ≤ e.time) : Inv (applyEvent s e) e.time := by
  obtain ⟨hn, htr, hpd⟩ := hI
  cases hs : step s e with
  | error x =>
    rw [applyEvent_of_error hs]
    exact ⟨hn, htr, fun hp => le_trans (hpd hp) ht⟩
  | ok s' =>
    rw [applyEvent_of_ok hs]
    cases e with
    | bid tb u a =>
      obtain ⟨hl, htd, hb, htrs, hsp, hdl, _, _, _⟩ := bid_ok_inv hs
      have hpf : s.sellerPayed = false := by
        cases hsp2 : s.sellerPayed
        · rfl
        · have h1 := hpd hsp2
          simp only [Event.time] at ht
          omega
      refine ⟨?_, ?_, ?_⟩
      · unfold keysNodup
        rw [hb]
        simp only [List.map_cons, List.nodup_cons]
        refine ⟨fun hmem => ?_, hn⟩
        obtain ⟨p, hp, hpu⟩ := List.mem_map.1 hmem
        exact lookupBid_none_iff.1 hl p hp hpu
      · have hsp' : s'.sellerPayed = false := by rw [hsp, hpf]
        have hes : effSum s'
            = (((u, a) :: s.bids).map (effAmt false s'.highestBidderAccount)).sum := by
          unfold effSum
          rw [hb, hsp']
        rw [htrs, hes, effSum_false_list, List.map_cons, List.sum_cons]
        have h2 : effSum s = sumBids s.bids := effSum_not_payed hpf
        unfold sumBids at h2
        omega
      · intro hp
        rw [hsp, hpf] at hp
        cases hp
    | settle ts =>
      obtain ⟨a, hl, hdt, hpf, hat, hb, htr', hpaid, hsp', hh0, hw', hdl, _⟩ :=
        end_auction_ok_inv hs
      refine ⟨?_, ?_, ?_⟩
      · unfold keysNodup
        rw [hb]
        exact hn
      · have hes : effSum s'
            = (s.bids.map (effAmt true s.highestBidderAccount)).sum := by
          unfold effSum
          rw [hb, hsp', hw']
        have h2 := settle_effSum hn hl
        have h3 : effSum s = sumBids s.bids := effSum_not_payed hpf
        unfold sumBids at h2 h3
        rw [htr', hes]
        omega
      · intro _
        rw [hdl]
        simpa only [Event.time] using hdt
    | refund tf u =>
      obtain ⟨a, hl, hdt, hp', hb, hdl, _, hsp, hh, hw, hpaid, hcase⟩ :=
        refund_ok_inv hs
      have hfs : effSum s'
          = ((removeBid s.bids u).map (effAmt true s.highestBidderAccount)).sum := by
        unfold effSum
        rw [hb, hw, hsp, hp']
      have hsum := sum_removeBid (effAmt true s.highestBidderAccount) hl
      refine ⟨?_, ?_, ?_⟩
      · unfold keysNodup
        rw [hb]
        exact keys_nodup_removeBid hn
      · rcases hcase with ⟨hweq, htreq⟩ | ⟨hwne, hale, htreq⟩
        · have hf0 : effAmt true s.highestBidderAccount (u, a) = 0 := by
            simp [effAmt, hweq.symm]
          rw [htreq, hfs, htr]
          unfold effSum
          rw [hp']
          omega
        · have hfa : effAmt true s.highestBidderAccount (u, a) = a := by
            have : ¬ (u = s.highestBidderAccount) := fun hc => hwne hc.symm
            simp [effAmt, this]
          rw [htreq, hfs, htr]
          unfold effSum
          rw [hp']
          omega
      · intro _
        rw [hdl]
        simpa only [Event.time] using hdt

theorem inv_run {tr : List Event} : ∀ {t : Int} {s : State},
    chrono t tr = true → Inv s t → ∃ t', Inv (run s tr) t' := by
  induction tr with
  | nil => exact fun hc hI => ⟨_, hI⟩
  | cons e tr ih =>
    intro t s hc hI
    have hc' : (decide (t ≤ e.time) && chrono e.time tr) = true := hc
    rw [Bool.and_eq_true, decide_eq_true_eq] at hc'
    rw [run_cons]
    exact ih hc'.2 (inv_applyEvent hI hc'.1)

theorem reachable_inv {s : State} (h : Reachable s) :
    keysNodup s ∧ s.treasury = effSum s := by
  obtain ⟨seller, t0, dur, tr, hc, hrun⟩ := h
  have h0 : Inv (initAuction t0 seller dur) t0 := by
    refine ⟨?_, rfl, ?_⟩
    · simp [keysNodup, initAuction]
    · intro hp
      simp [initAuction] at hp
  obtain ⟨t', hI⟩ := inv_run hc h0
  rw [hrun] at hI
  exact ⟨hI.1, hI.2.1⟩

end Auction

namespace Auction

theorem applyEvent_deadline (s : State) (e : Event) :
    (applyEvent s e).deadline = s.deadline := by
  cases hs : step s e with
  | error x => rw [applyEvent_of_error hs]
  | ok s' =>
    rw [applyEvent_of_ok hs]
    cases e with
    | bid tb u a => exact (bid_ok_inv hs).2.2.2.2.2.1
    | settle ts =>
      obtain ⟨a, _, _, _, _, _, _, _, _, _, _, hdl, _⟩ := end_auction_ok_inv hs
      exact hdl
    | refund tf u =>
      obtain ⟨a, _, _, _, _, hdl, _⟩ := refund_ok_inv hs
      exact hdl

theorem run_deadline (s : State) (tr : List Event) :
    (run s tr).deadline = s.deadline := by
  induction tr generalizing s with
  | nil => rfl
  | cons e tr ih => rw [run_cons, ih, applyEvent_deadline]

theorem applyEvent_payed_mono {s : State} (e : Event)
    (h : s.sellerPayed = true) : (applyEvent s e).sellerPayed = true := by
  cases hs : step s e with
  | error x => rw [applyEvent_of_error hs]; exact h
  | ok s' =>
    rw [applyEvent_of_ok hs]
    cases e with
    | bid tb u a => rw [(bid_ok_inv hs).2.2.2.2.1]; exact h
    | settle ts =>
      obtain ⟨a, _, _, _, _, _, _, _, hsp, _⟩ := end_auction_ok_inv hs
      exact hsp
    | refund tf u =>
      obtain ⟨a, _, _, _, _, _, _, hsp, _⟩ := refund_ok_inv hs
      rw [hsp]
      exact h

theorem run_payed_mono {s : State} (tr : List Event)
    (h : s.sellerPayed = true) : (run s tr).sellerPayed = true := by
  induction tr generalizing s with
  | nil => exact h
  | cons e tr ih => exact ih (applyEvent_payed_mono e h)

theorem applyEvent_absent {s : State} {u : Nat} {e : Event}
    (h : lookupBid s.bids u = none) (ht : s.deadline ≤ e.time) :
    lookupBid (applyEvent s e).bids u = none := by
  cases hs : step s e with
  | error x => rw [applyEvent_of_error hs]; exact h
  | ok s' =>
    rw [applyEvent_of_ok hs]
    cases e with
    | bid tb v a =>
      obtain ⟨_, htd, _⟩ := bid_ok_inv hs
      simp only [Event.time] at ht
      omega
    | settle ts =>
      obtain ⟨a, _, _, _, _, hb, _⟩ := end_auction_ok_inv hs
      rw [hb]
      exact h
    | refund tf v =>
      obtain ⟨a, _, _, _, hb, _⟩ := refund_ok_inv hs
      rw [hb]
      exact lookupBid_none_of_sublist (removeBid_sublist s.bids v) h

theorem run_absent {s : State} {u : Nat} {tr : List Event}
    (h : lookupBid s.bids u = none) (ht : allAfter s.deadline tr = true) :
    lookupBid (run s tr).bids u = none := by
  induction tr generalizing s with
  | nil => exact h
  | cons e tr ih =>
    have ht' : (decide (s.deadline ≤ e.time)
        && (tr.all fun x => decide (s.deadline ≤ x.time))) = true := by
      simpa [allAfter, List.all_cons] using ht
    rw [Bool.and_eq_true, decide_eq_true_eq] at ht'
    rw [run_cons]
    apply ih (applyEvent_absent h ht'.1)
    rw [allAfter, applyEvent_deadline]
    exact ht'.2

end Auction

namespace Auction

/-- Run a sequence of raw `bid` calls, each given as (clock value, bidder,
amount). -/
def runBids (s : State) (l : List (Int × Nat × Nat)) : State :=
  l.foldl (fun s p => applyEvent s (.bid p.1 p.2.1 p.2.2)) s

/-- Every `bid` call in the sequence succeeds. -/
def allBidsOk (s : State) : List (Int × Nat × Nat) → Bool
  | [] => true
  | p :: l =>
    match bid s p.1 p.2.1 p.2.2 with
    | .ok s' => allBidsOk s' l
    | .error _ => false

/-- Specification-side definition, from the spec's words: the maximum amount
among the bids committed so far (`0` when there are none). -/
def spec_max_bid (l : List (Int × Nat × Nat)) : Nat :=
  l.foldr (fun p m => max p.2.2 m) 0

/-- Specification-side definition, from the spec's words: the identity of the
earliest bidder in the sequence to have reached amount `m`. -/
def spec_first_to_reach (l : List (Int × Nat × Nat)) (m : Nat) : Option Nat :=
  (l.find? fun p => p.2.2 == m).map fun p => p.2.1

theorem spec_first_cons_pos {t : Int} {u a : Nat} {l : List (Int × Nat × Nat)}
    {m : Nat} (h : a = m) :
    spec_first_to_reach ((t, u, a) :: l) m = some u := by
  unfold spec_first_to_reach
  rw [List.find?_cons_of_pos]
  · rfl
  · simp [h]

theorem spec_first_cons_neg {t : Int} {u a : Nat} {l : List (Int × Nat × Nat)}
    {m : Nat} (h : a ≠ m) :
    spec_first_to_reach ((t, u, a) :: l) m = spec_first_to_reach l m := by
  unfold spec_first_to_reach
  rw [List.find?_cons_of_neg]
  simp [h]

theorem spec_max_cons (t : Int) (u a : Nat) (l : List (Int × Nat × Nat)) :
    spec_max_bid ((t, u, a) :: l) = max a (spec_max_bid l) := by
  simp [spec_max_bid]

theorem spec_first_to_reach_isSome :
    ∀ {l : List (Int × Nat × Nat)}, 0 < spec_max_bid l →
    (spec_first_to_reach l (spec_max_bid l)).isSome = true := by
  intro l
  induction l with
  | nil => intro h; simp [spec_max_bid] at h
  | cons p l ih =>
    intro h
    obtain ⟨t, u, a⟩ := p
    by_cases ha : a = spec_max_bid ((t, u, a) :: l)
    · rw [spec_first_cons_pos ha]
      rfl
    · have hM : spec_max_bid ((t, u, a) :: l) = spec_max_bid l := by
        rw [spec_max_cons] at ha ⊢
        omega
      rw [spec_first_cons_neg ha, hM]
      apply ih
      rw [hM] at h
      exact h

theorem runBids_cons (s : State) (t : Int) (u a : Nat)
    (l : List (Int × Nat × Nat)) :
    runBids s ((t, u, a) :: l) = runBids (applyEvent s (.bid t u a)) l := rfl

/-- Generalized leader-tracking lemma: running a sequence of successful bids
computes the maximum of the starting `highest_bid_amount` and the bid
amounts, and the leader becomes the earliest bidder to reach that maximum
whenever the maximum strictly exceeds the starting value. -/
theorem runBids_spec : ∀ (l : List (Int × Nat × Nat)) (s : State),
    allBidsOk s l = true →
    (runBids s l).highestBidAmount
      = max s.highestBidAmount (spec_max_bid l) ∧
    (runBids s l).highestBidderAccount
      = (if s.highestBidAmount < spec_max_bid l
         then (spec_first_to_reach l (spec_max_bid l)).getD
           s.highestBidderAccount
         else s.highestBidderAccount) := by
  intro l
  induction l with
  | nil =>
    intro s _
    refine ⟨by simp [runBids, spec_max_bid], ?_⟩
    simp [runBids, spec_max_bid]
  | cons p l ih =>
    intro s hok
    obtain ⟨t, u, a⟩ := p
    cases hb : bid s t u a with
    | error x =>
      simp only [allBidsOk, hb] at hok
      exact absurd hok (by simp)
    | ok s1 =>
      simp only [allBidsOk, hb] at hok
      have hap : applyEvent s (.bid t u a) = s1 :=
        applyEvent_of_ok (show step s (.bid t u a) = .ok s1 from hb)
      obtain ⟨hl, htd, hbids, htre, hsp, hdl, hin, hpa, hcase⟩ := bid_ok_inv hb
      obtain ⟨ih1, ih2⟩ := ih s1 hok
      rw [runBids_cons, hap, spec_max_cons]
      rcases hcase with ⟨hlt, hh1, hl1⟩ | ⟨hge, hh1, hl1⟩
      · constructor
        · rw [ih1, hh1]
          omega
        · rw [ih2, hh1, hl1]
          rcases Nat.lt_or_ge a (spec_max_bid l) with hAM | hAM
          · have hmax : max a (spec_max_bid l) = spec_max_bid l := by omega
            rw [hmax, if_pos hAM, if_pos (by omega : s.highestBidAmount < spec_max_bid l)]
            rw [spec_first_cons_neg (by omega : a ≠ spec_max_bid l)]
            obtain ⟨x, hx⟩ := Option.isSome_iff_exists.1
              (spec_first_to_reach_isSome (by omega : 0 < spec_max_bid l))
            rw [hx]
            rfl
          · have hmax : max a (spec_max_bid l) = a := by omega
            rw [hmax, if_neg (by omega : ¬ a < spec_max_bid l), if_pos hlt]
            rw [spec_first_cons_pos rfl]
            rfl
      · constructor
        · rw [ih1, hh1]
          omega
        · rw [ih2, hh1, hl1]
          rcases Nat.lt_or_ge s.highestBidAmount (spec_max_bid l) with hHM | hHM
          · rw [if_pos hHM,
              if_pos (by omega : s.highestBidAmount < max a (spec_max_bid l))]
            have hmax : max a (spec_max_bid l) = spec_max_bid l := by omega
            rw [hmax, spec_first_cons_neg (by omega : a ≠ spec_max_bid l)]
          · rw [if_neg (by omega : ¬ s.highestBidAmount < spec_max_bid l),
              if_neg (by omega : ¬ s.highestBidAmount < max a (spec_max_bid l))]

/-- A single `bid` call never decreases `highest_bid_amount`, whether it
succeeds or fails. -/
theorem applyEvent_bid_mono (s : State) (t : Int) (u a : Nat) :
    s.highestBidAmount ≤ (applyEvent s (.bid t u a)).highestBidAmount := by
  cases hb : bid s t u a with
  | error x =>
    rw [applyEvent_of_error (show step s (.bid t u a) = .error x from hb)]
  | ok s1 =>
    rw [applyEvent_of_ok (show step s (.bid t u a) = .ok s1 from hb)]
    obtain ⟨_, _, _, _, _, _, _, _, hcase⟩ := bid_ok_inv hb
    rcases hcase with ⟨hlt, hh1, _⟩ | ⟨_, hh1, _⟩
    · omega
    · omega

/-- A sequence of `bid` calls never decreases `highest_bid_amount`. -/
theorem runBids_mono (l : List (Int × Nat × Nat)) : ∀ (s : State),
    s.highestBidAmount ≤ (runBids s l).highestBidAmount := by
  induction l with
  | nil => intro s; exact le_refl _
  | cons p l ih =>
    intro s
    obtain ⟨t, u, a⟩ := p
    rw [runBids_cons]
    exact le_trans (applyEvent_bid_mono s t u a) (ih _)

theorem runBids_append (s : State) (l1 l2 : List (Int × Nat × Nat)) :
    runBids s (l1 ++ l2) = runBids (runBids s l1) l2 := by
  unfold runBids
  exact List.foldl_append _ _ _ _

end Auction

namespace Auction

/-- Sample auction: seller 9, created at time 0, duration 100 (deadline
100). -/
def exFresh : State := initAuction 0 9 100

/-- Bidder 1 has deposited 7 lamports before the deadline. -/
def exOneBid : State := run exFresh [.bid 10 1 7]

/-- Bidder 1 has deposited 5 lamports before the deadline. -/
def exBid5 : State := run exFresh [.bid 10 1 5]

/-- Bidders 1 (5 lamports) and 2 (7 lamports) have deposited and the seller
has settled at the deadline; bidder 2 is the winner. -/
def exSettled : State := run exFresh [.bid 10 1 5, .bid 20 2 7, .settle 100]

/-- Single bidder 1 deposited 7, the seller settled, and the winner performed
the cleanup refund that closed the winning record. -/
def exCleaned : State := run exFresh [.bid 10 1 7, .settle 100, .refund 110 1]

/-- C1 counterexample: after the winner's cleanup refund, the spec's formula
`escrowBalance = sum(live Bid amounts) - (amount paid to seller if
sellerSettled)` fails: the treasury holds 0, no live records remain, the
seller has settled and was paid 7, but 0 ≠ 0 - 7. -/
theorem c1_escrow_formula_counterexample :
    exCleaned.treasury = 0 ∧
    exCleaned.sellerPayed = true ∧
    sumBids exCleaned.bids = 0 ∧
    exCleaned.paidToInitializer = 7 ∧
    ¬ ((exCleaned.treasury : Int)
        = (sumBids exCleaned.bids : Int)
          - (if exCleaned.sellerPayed = true
             then (exCleaned.paidToInitializer : Int) else 0)) := by
  refine ⟨rfl, rfl, rfl, rfl, ?_⟩
  decide

/-- C1 (amended): after every operation on a reachable auction, the escrow
balance equals the sum of the amounts of the live (not yet refunded) `Bid`
records, minus the winning record's amount when the seller has settled and
the winning record is still live (once the winner's cleanup refund closes the
winning record, nothing is subtracted any more); the balance is never
negative. -/
theorem c1_escrow_conservation (s : State) (h : Reachable s) :
    s.treasury = effSum s ∧ 0 ≤ (s.treasury : Int) :=
  ⟨(reachable_inv h).2, by exact_mod_cast Nat.zero_le _⟩

/-- Witness for C1 at a concrete reachable state. -/
theorem c1_escrow_conservation_witness :
    Reachable exCleaned ∧ exCleaned.treasury = effSum exCleaned := by
  have hr : Reachable exCleaned :=
    ⟨9, 0, 100, [.bid 10 1 7, .settle 100, .refund 110 1], by decide, rfl⟩
  exact ⟨hr, (c1_escrow_conservation exCleaned hr).1⟩

/-- C2 counterexample: a successful bid of amount 0 by bidder 1 leaves
`highest_bidder_account` at the unset default 0, although the earliest bidder
to reach the maximum amount (0) is bidder 1: the leadership clause fails for
zero-amount bids. -/
theorem c2_zero_bid_counterexample :
    allBidsOk (initAuction 0 9 100) [(10, 1, 0)] = true ∧
    spec_max_bid [(10, 1, 0)] = 0 ∧
    (runBids (initAuction 0 9 100) [(10, 1, 0)]).highestBidAmount
      = spec_max_bid [(10, 1, 0)] ∧
    spec_first_to_reach [(10, 1, 0)] (spec_max_bid [(10, 1, 0)]) = some 1 ∧
    (runBids (initAuction 0 9 100) [(10, 1, 0)]).highestBidderAccount ≠ 1 := by
  refine ⟨by decide, rfl, rfl, rfl, ?_⟩
  decide

/-- C2 (amended): for every sequence of successful `bid` calls on a fresh
auction, `highest_bid_amount` equals the maximum amount among the committed
bids; whenever that maximum is positive, `highest_bidder_account` is the
earliest bidder to have reached it (an equal bid never replaces the leader);
and `highest_bid_amount` never decreases along the sequence. -/
theorem c2_highest_bid_tracking (seller : Nat) (t0 dur : Int)
    (l : List (Int × Nat × Nat))
    (h : allBidsOk (initAuction t0 seller dur) l = true) :
    (runBids (initAuction t0 seller dur) l).highestBidAmount
      = spec_max_bid l ∧
    (0 < spec_max_bid l →
      spec_first_to_reach l (spec_max_bid l)
        = some (runBids (initAuction t0 seller dur) l).highestBidderAccount) ∧
    (∀ l1 l2, l = l1 ++ l2 →
      (runBids (initAuction t0 seller dur) l1).highestBidAmount
        ≤ (runBids (initAuction t0 seller dur) l).highestBidAmount) := by
  obtain ⟨h1, h2⟩ := runBids_spec l (initAuction t0 seller dur) h
  refine ⟨?_, ?_, ?_⟩
  · rw [h1]
    show max 0 (spec_max_bid l) = spec_max_bid l
    omega
  · intro hM
    rw [h2, if_pos (show (initAuction t0 seller dur).highestBidAmount
        < spec_max_bid l from hM)]
    obtain ⟨x, hx⟩ :=
      Option.isSome_iff_exists.1 (spec_first_to_reach_isSome hM)
    rw [hx]
    rfl
  · intro l1 l2 hsplit
    subst hsplit
    rw [runBids_append]
    exact runBids_mono l2 _

/-- Witness for C2 on a concrete three-bid sequence. -/
theorem c2_highest_bid_tracking_witness :
    allBidsOk (initAuction 0 9 100) [(10, 1, 5), (20, 2, 3), (30, 3, 7)]
      = true ∧
    (runBids (initAuction 0 9 100)
        [(10, 1, 5), (20, 2, 3), (30, 3, 7)]).highestBidAmount
      = spec_max_bid [(10, 1, 5), (20, 2, 3), (30, 3, 7)] ∧
    spec_first_to_reach [(10, 1, 5), (20, 2, 3), (30, 3, 7)]
        (spec_max_bid [(10, 1, 5), (20, 2, 3), (30, 3, 7)])
      = some (runBids (initAuction 0 9 100)
          [(10, 1, 5), (20, 2, 3), (30, 3, 7)]).highestBidderAccount := by
  have h : allBidsOk (initAuction 0 9 100)
      [(10, 1, 5), (20, 2, 3), (30, 3, 7)] = true := by decide
  obtain ⟨h1, h2, _⟩ := c2_highest_bid_tracking 9 0 100 _ h
  exact ⟨h, h1, h2 (by decide)⟩

/-- C3 counterexample: after the winner's cleanup refund has closed the
winning `Bid` record, a further settle call fails with the account-not-found
validation error, not with `AlreadyClaimedPrize`. -/
theorem c3_second_settle_counterexample :
    exCleaned.sellerPayed = true ∧
    end_auction exCleaned 120 = .error .accountNotInitialized ∧
    end_auction exCleaned 120 ≠ .error .alreadyClaimedPrize := by
  refine ⟨rfl, rfl, ?_⟩
  intro h
  rw [show end_auction exCleaned 120 = .error .accountNotInitialized
    from rfl] at h
  injection h with h2
  cases h2

/-- C3 (amended): on a reachable unsettled auction whose winning `Bid` record
exists, the first settle call at or after the deadline pays that record's
amount (covered by the escrow, the transfer happening only when positive) to
the seller, sets `seller_payed`, resets `highest_bid_amount` and leaves the
winning record in place; every later settle call at or after the deadline
fails — with `AlreadyClaimedPrize`, or with the account-not-found validation
failure once the winner's cleanup refund has closed the record — so settle
succeeds at most once. -/
theorem c3_settle_once (s : State) (t : Int) (a : Nat)
    (hr : Reachable s) (hd : s.deadline ≤ t) (hp : s.sellerPayed = false)
    (hw : lookupBid s.bids s.highestBidderAccount = some a) :
    a ≤ s.treasury ∧
    end_auction s t
      = .ok { s with treasury := s.treasury - a
                     paidToInitializer := s.paidToInitializer + a
                     sellerPayed := true
                     highestBidAmount := 0 } ∧
    lookupBid (applyEvent s (.settle t)).bids s.highestBidderAccount
      = some a ∧
    (∀ (tr : List Event) (t' : Int), s.deadline ≤ t' →
      end_auction (run (applyEvent s (.settle t)) tr) t'
          = .error .alreadyClaimedPrize
        ∨ end_auction (run (applyEvent s (.settle t)) tr) t'
          = .error .accountNotInitialized) := by
  obtain ⟨hn, htr⟩ := reachable_inv hr
  have hsum : a ≤ s.treasury := by
    have h1 : a ≤ (s.bids.map Prod.snd).sum := by
      simpa using lookup_le_sum Prod.snd hw
    have h2 : effSum s = sumBids s.bids := effSum_not_payed hp
    unfold sumBids at h2
    omega
  have hok : end_auction s t
      = .ok { s with treasury := s.treasury - a
                     paidToInitializer := s.paidToInitializer + a
                     sellerPayed := true
                     highestBidAmount := 0 } := by
    simp only [end_auction, hw]
    rw [if_neg (by omega : ¬ t < s.deadline),
      if_neg (by simp [hp] : ¬ s.sellerPayed = true)]
    rcases Nat.eq_zero_or_pos a with ha0 | hapos
    · subst ha0
      rw [if_neg (by omega : ¬ (0:Nat) < 0)]
      simp
    · rw [if_pos hapos, if_neg (by omega : ¬ s.treasury < a)]
  have happ : applyEvent s (.settle t)
      = { s with treasury := s.treasury - a
                 paidToInitializer := s.paidToInitializer + a
                 sellerPayed := true
                 highestBidAmount := 0 } :=
    applyEvent_of_ok (show step s (.settle t) = _ from hok)
  refine ⟨hsum, hok, ?_, ?_⟩
  · rw [happ]
    exact hw
  · intro tr t' ht'
    have hp2 : (run (applyEvent s (.settle t)) tr).sellerPayed = true := by
      apply run_payed_mono
      rw [happ]
    have hd2 : (run (applyEvent s (.settle t)) tr).deadline = s.deadline := by
      rw [run_deadline, happ]
    cases hl2 : lookupBid (run (applyEvent s (.settle t)) tr).bids
        (run (applyEvent s (.settle t)) tr).highestBidderAccount with
    | none =>
      right
      simp [end_auction, hl2]
    | some b =>
      left
      simp only [end_auction, hl2]
      rw [if_neg (by omega : ¬ t' < (run (applyEvent s (.settle t)) tr).deadline),
        if_pos hp2]

/-- Witness for C3 at a concrete reachable one-bid auction. -/
theorem c3_settle_once_witness :
    (7 : Nat) ≤ exOneBid.treasury ∧
    lookupBid (applyEvent exOneBid (.settle 100)).bids
        exOneBid.highestBidderAccount = some 7 ∧
    (end_auction (run (applyEvent exOneBid (.settle 100)) [.refund 110 1]) 120
        = .error .alreadyClaimedPrize
      ∨ end_auction (run (applyEvent exOneBid (.settle 100)) [.refund 110 1]) 120
        = .error .accountNotInitialized) := by
  have hr : Reachable exOneBid := ⟨9, 0, 100, [.bid 10 1 7], by decide, rfl⟩
  have H := c3_settle_once exOneBid 100 7 hr (by decide) (by decide) (by decide)
  exact ⟨H.1, H.2.2.1, H.2.2.2 [.refund 110 1] 120 (by decide)⟩

/-- C4 counterexample: bidder 1 bids before the deadline and bids again after
it; the late second call fails with the account-already-in-use creation
failure, not with `Finished`. -/
theorem c4_late_rebid_counterexample :
    (100 : Int) ≤ 200 ∧ exBid5.deadline = 100 ∧
    bid exBid5 200 1 7 = .error .accountAlreadyInUse ∧
    bid exBid5 200 1 7 ≠ .error .finished := by
  refine ⟨by decide, rfl, rfl, ?_⟩
  intro h
  rw [show bid exBid5 200 1 7 = .error .accountAlreadyInUse from rfl] at h
  injection h with h2
  cases h2

/-- C4 (amended): every `bid` call at or after the deadline fails and is
rolled back with no state change: with `Finished` when the caller has no
existing `Bid` record, and with the account-already-in-use creation failure
when they do. -/
theorem c4_bid_after_deadline (s : State) (t : Int) (u a : Nat)
    (hd : s.deadline ≤ t) :
    (lookupBid s.bids u = none → bid s t u a = .error .finished) ∧
    ((lookupBid s.bids u).isSome = true →
      bid s t u a = .error .accountAlreadyInUse) ∧
    applyEvent s (.bid t u a) = s := by
  cases hl : lookupBid s.bids u with
  | none =>
    have herr : bid s t u a = .error .finished := by
      simp only [bid, hl]
      rw [if_pos hd]
    refine ⟨fun _ => herr, fun hs => ?_, ?_⟩
    · simp at hs
    · exact applyEvent_of_error (show step s (.bid t u a) = _ from herr)
  | some v =>
    have herr : bid s t u a = .error .accountAlreadyInUse := by
      simp only [bid, hl]
    refine ⟨fun hc => ?_, fun _ => herr, ?_⟩
    · exact Option.noConfusion hc
    · exact applyEvent_of_error (show step s (.bid t u a) = _ from herr)

/-- Witness for C4: a first-time bidder after the deadline gets `Finished`
and nothing changes. -/
theorem c4_bid_after_deadline_witness :
    bid exFresh 200 1 5 = .error .finished ∧
    applyEvent exFresh (.bid 200 1 5) = exFresh := by
  have H := c4_bid_after_deadline exFresh 200 1 5 (by decide)
  exact ⟨H.1 (by decide), H.2.2⟩

/-- C5 counterexample: a refund call before the deadline by an account that
never bid fails with the account-not-found validation error, not with
`AuctionStillActive`. -/
theorem c5_refund_no_record_counterexample :
    (10 : Int) < exFresh.deadline ∧
    refund exFresh 10 2 = .error .accountNotInitialized ∧
    refund exFresh 10 2 ≠ .error .stillActive := by
  refine ⟨by decide, rfl, ?_⟩
  intro h
  rw [show refund exFresh 10 2 = .error .accountNotInitialized from rfl] at h
  injection h with h2
  cases h2

/-- C5 (amended): for a caller whose `Bid` record exists, a refund call
before the deadline fails with `StillActive`, and a refund call at or after
the deadline while the seller has not settled fails with `UnclaimedPrize`; in
both cases the call is rolled back with no state change. -/
theorem c5_refund_gating (s : State) (t : Int) (u a : Nat)
    (hb : lookupBid s.bids u = some a) :
    (t < s.deadline →
      refund s t u = .error .stillActive ∧ applyEvent s (.refund t u) = s) ∧
    (s.deadline ≤ t → s.sellerPayed = false →
      refund s t u = .error .unclaimedPrize ∧
      applyEvent s (.refund t u) = s) := by
  constructor
  · intro ht
    have herr : refund s t u = .error .stillActive := by
      simp only [refund, hb]
      rw [if_pos ht]
    exact ⟨herr, applyEvent_of_error (show step s (.refund t u) = _ from herr)⟩
  · intro ht hp
    have herr : refund s t u = .error .unclaimedPrize := by
      simp only [refund, hb]
      rw [if_neg (by omega : ¬ t < s.deadline), if_pos hp]
    exact ⟨herr, applyEvent_of_error (show step s (.refund t u) = _ from herr)⟩

/-- Witness for C5 at a concrete one-bid auction, before the deadline and
after it (seller not settled). -/
theorem c5_refund_gating_witness :
    refund exBid5 10 1 = .error .stillActive ∧
    refund exBid5 150 1 = .error .unclaimedPrize := by
  have H1 := (c5_refund_gating exBid5 10 1 5 (by decide)).1 (by decide)
  have H2 := (c5_refund_gating exBid5 150 1 5 (by decide)).2 (by decide) (by decide)
  exact ⟨H1.1, H2.1⟩

end Auction

namespace Auction

theorem lookupBid_removeBid_self {bids : List (Nat × Nat)} {u : Nat}
    (hn : (bids.map Prod.fst).Nodup) :
    lookupBid (removeBid bids u) u = none :=
  lookupBid_none_iff.2 (mem_removeBid_ne hn)

/-- Loser 1 has been refunded after settlement. -/
def exRefunded1 : State :=
  run exFresh [.bid 10 1 5, .bid 20 2 7, .settle 100, .refund 110 1]

/-- Winner 2 has performed the cleanup refund after settlement. -/
def exWinnerCleaned : State :=
  run exFresh [.bid 10 1 5, .bid 20 2 7, .settle 100, .refund 110 2]

/-- C6: refund succeeds at most once per (auction, bidder): a successful
refund closes the caller's `Bid` record, and every later refund call by the
same bidder fails with the record-not-found validation error (the spec's
`NoSuchBid`), rolled back with no state change and no funds moved. -/
theorem c6_refund_at_most_once (s s' : State) (t : Int) (u : Nat)
    (hr : Reachable s) (h : refund s t u = .ok s') :
    lookupBid s'.bids u = none ∧
    (∀ (tr : List Event) (t' : Int), allAfter s'.deadline tr = true →
      refund (run s' tr) t' u = .error .accountNotInitialized ∧
      applyEvent (run s' tr) (.refund t' u) = run s' tr) := by
  obtain ⟨hn, _⟩ := reachable_inv hr
  obtain ⟨a, hl, hdt, hp, hb, hdl, _⟩ := refund_ok_inv h
  have habs : lookupBid s'.bids u = none := by
    rw [hb]
    exact lookupBid_removeBid_self hn
  refine ⟨habs, fun tr t' ht => ?_⟩
  have habs2 : lookupBid (run s' tr).bids u = none := run_absent habs ht
  have herr : refund (run s' tr) t' u = .error .accountNotInitialized := by
    simp only [refund, habs2]
  exact ⟨herr,
    applyEvent_of_error (show step (run s' tr) (.refund t' u) = _ from herr)⟩

/-- Witness for C6: bidder 1's second refund fails with record-not-found. -/
theorem c6_refund_at_most_once_witness :
    lookupBid exRefunded1.bids 1 = none ∧
    refund (run exRefunded1 [.settle 130]) 140 1
      = .error .accountNotInitialized := by
  have hr : Reachable exSettled :=
    ⟨9, 0, 100, [.bid 10 1 5, .bid 20 2 7, .settle 100], by decide, rfl⟩
  have H := c6_refund_at_most_once exSettled exRefunded1 110 1 hr rfl
  exact ⟨H.1, (H.2 [.settle 130] 140 (by decide)).1⟩

/-- C7: on a reachable settled auction, a successful refund by the winner
(the identity in `highest_bidder_account`) moves no funds but closes their
`Bid` record, while a refund by any other bidder returns exactly that
bidder's recorded amount (the transfer being skipped, but the call still
succeeding, at amount 0) and closes the record. -/
theorem c7_refund_payout (s : State) (t : Int) (u a : Nat)
    (hr : Reachable s) (hd : s.deadline ≤ t) (hp : s.sellerPayed = true)
    (hb : lookupBid s.bids u = some a) :
    (s.highestBidderAccount = u →
      refund s t u = .ok { s with bids := removeBid s.bids u }) ∧
    (s.highestBidderAccount ≠ u →
      a ≤ s.treasury ∧
      refund s t u = .ok { s with treasury := s.treasury - a
                                  bids := removeBid s.bids u }) := by
  obtain ⟨hn, htr⟩ := reachable_inv hr
  constructor
  · intro hw
    simp only [refund, hb]
    rw [if_neg (by omega : ¬ t < s.deadline),
      if_neg (by simp [hp] : ¬ s.sellerPayed = false),
      if_neg (show ¬ s.highestBidderAccount ≠ u from fun hc => hc hw)]
  · intro hw
    have hale : a ≤ s.treasury := by
      have h1 : effAmt true s.highestBidderAccount (u, a)
          ≤ (s.bids.map (effAmt true s.highestBidderAccount)).sum :=
        lookup_le_sum _ hb
      have h2 : effAmt true s.highestBidderAccount (u, a) = a := by
        have hne : ¬ (u = s.highestBidderAccount) := fun hc => hw hc.symm
        simp [effAmt, hne]
      have h3 : s.treasury
          = (s.bids.map (effAmt true s.highestBidderAccount)).sum := by
        rw [htr]
        unfold effSum
        rw [hp]
      omega
    refine ⟨hale, ?_⟩
    simp only [refund, hb]
    rw [if_neg (by omega : ¬ t < s.deadline),
      if_neg (by simp [hp] : ¬ s.sellerPayed = false), if_pos hw]
    rcases Nat.eq_zero_or_pos a with ha0 | hapos
    · subst ha0
      rw [if_neg (by omega : ¬ (0:Nat) < 0)]
      simp
    · rw [if_pos hapos, if_neg (by omega : ¬ s.treasury < a)]

/-- Witness for C7: on the settled two-bidder auction, the winner's cleanup
refund moves no funds and the loser recovers exactly 5. -/
theorem c7_refund_payout_witness :
    refund exSettled 110 2
      = .ok { exSettled with bids := removeBid exSettled.bids 2 } ∧
    (5 : Nat) ≤ exSettled.treasury ∧
    refund exSettled 110 1
      = .ok { exSettled with treasury := exSettled.treasury - 5
                             bids := removeBid exSettled.bids 1 } := by
  have hr : Reachable exSettled :=
    ⟨9, 0, 100, [.bid 10 1 5, .bid 20 2 7, .settle 100], by decide, rfl⟩
  have Hw := (c7_refund_payout exSettled 110 2 7 hr (by decide) (by decide)
    (by decide)).1 (by decide)
  have Hl := (c7_refund_payout exSettled 110 1 5 hr (by decide) (by decide)
    (by decide)).2 (by decide)
  exact ⟨Hw, Hl.1, Hl.2⟩

/-- C8 counterexample: settle after the deadline on an auction with no bids
fails at account validation instead of succeeding with a payout of 0;
`seller_payed` stays false. -/
theorem c8_no_bid_settle_counterexample :
    exFresh.bids = [] ∧ exFresh.deadline ≤ 200 ∧
    end_auction exFresh 200 = .error .accountNotInitialized ∧
    (applyEvent exFresh (.settle 200)).sellerPayed = false :=
  ⟨rfl, by decide, rfl, rfl⟩

/-- C8 (amended): when no `UserBid` record exists at
`state.highest_bidder_account` — in particular when no bid was ever placed —
`end_auction` fails with the record-not-found validation error at any time
and is rolled back; it does not succeed as a 0-payout no-op and
`seller_payed` is not set. -/
theorem c8_settle_without_winner_record (s : State) (t : Int)
    (h : lookupBid s.bids s.highestBidderAccount = none) :
    end_auction s t = .error .accountNotInitialized ∧
    applyEvent s (.settle t) = s := by
  have herr : end_auction s t = .error .accountNotInitialized := by
    simp only [end_auction, h]
  exact ⟨herr, applyEvent_of_error (show step s (.settle t) = _ from herr)⟩

/-- Witness for C8 on the fresh zero-bid auction. -/
theorem c8_settle_without_winner_record_witness :
    end_auction exFresh 200 = .error .accountNotInitialized ∧
    applyEvent exFresh (.settle 200) = exFresh :=
  c8_settle_without_winner_record exFresh 200 (by decide)

/-- C9 counterexample: a second bid by bidder 1 before the deadline fails at
account creation and does not overwrite the recorded amount, which stays 5. -/
theorem c9_rebid_overwrite_counterexample :
    (20 : Int) < exBid5.deadline ∧
    lookupBid exBid5.bids 1 = some 5 ∧
    bid exBid5 20 1 7 = .error .accountAlreadyInUse ∧
    lookupBid (run exBid5 [.bid 20 1 7]).bids 1 = some 5 :=
  ⟨by decide, rfl, rfl, rfl⟩

/-- C9 (amended): a `bid` call by a bidder who already has a `Bid` record on
this auction fails at account creation (the `UserBid` PDA already exists),
at any time and for any amount, and is rolled back: the existing record is
not overwritten. -/
theorem c9_rebid_rejected (s : State) (t : Int) (u a a0 : Nat)
    (hb : lookupBid s.bids u = some a0) :
    bid s t u a = .error .accountAlreadyInUse ∧
    applyEvent s (.bid t u a) = s := by
  have herr : bid s t u a = .error .accountAlreadyInUse := by
    simp only [bid, hb]
  exact ⟨herr, applyEvent_of_error (show step s (.bid t u a) = _ from herr)⟩

/-- Witness for C9 at the one-bid auction. -/
theorem c9_rebid_rejected_witness :
    bid exBid5 20 1 7 = .error .accountAlreadyInUse ∧
    applyEvent exBid5 (.bid 20 1 7) = exBid5 :=
  c9_rebid_rejected exBid5 20 1 7 5 (by decide)

/-- C10: a successful refund leaves every field of the `State` account
unchanged — deadline, initializer, `seller_payed`, `highest_bid_amount` and
`highest_bidder_account` (which may now dangle on the winner's closed
record) — and only closes the caller's own `Bid` record: every other
bidder's record is untouched. -/
theorem c10_refund_frame (s s' : State) (t : Int) (u : Nat)
    (h : refund s t u = .ok s') :
    s'.deadline = s.deadline ∧ s'.initializer = s.initializer ∧
    s'.sellerPayed = s.sellerPayed ∧
    s'.highestBidAmount = s.highestBidAmount ∧
    s'.highestBidderAccount = s.highestBidderAccount ∧
    s'.bids = removeBid s.bids u ∧
    ∀ v, v ≠ u → lookupBid s'.bids v = lookupBid s.bids v := by
  obtain ⟨a, hl, hdt, hp, hb, hdl, hin, hsp, hh, hw, hpaid, _⟩ :=
    refund_ok_inv h
  refine ⟨hdl, hin, hsp, hh, hw, hb, fun v hv => ?_⟩
  rw [hb]
  exact lookupBid_removeBid_ne hv

/-- Witness for C10: after the winner's cleanup refund,
`highest_bidder_account` still points at the winner and the loser's record is
untouched. -/
theorem c10_refund_frame_witness :
    exWinnerCleaned.highestBidderAccount = exSettled.highestBidderAccount ∧
    exWinnerCleaned.sellerPayed = exSettled.sellerPayed ∧
    lookupBid exWinnerCleaned.bids 1 = lookupBid exSettled.bids 1 := by
  have H := c10_refund_frame exSettled exWinnerCleaned 110 2 rfl
  exact ⟨H.2.2.2.2.1, H.2.2.1, H.2.2.2.2.2.2 1 (by decide)⟩

end Auction
